import Mathlib

/-!
Verification development for the wonder_shuffle card-draw engine.

The JavaScript sources are shallowly embedded:
* the PRNG (`rng.js`, built on pure-rand) is modelled as an abstract stream of
  raw naturals together with a position; `randomInt lo hi` consumes one stream
  element and reduces it into the inclusive range `[lo, hi]`.  Quantifying over
  all streams covers every possible sequence of sampler outputs;
* `DeckManager` (`src/models/DeckManager.js`) becomes pure functions over a
  `DeckState`;
* the draw resolver `handleDrawCards` and the bonus resolver
  `handleMischiefDraw` (`src/main.js`) become state-passing functions returning
  `Option (List String)` — `none` models the early returns that produce no
  outcome (and, for `handleMischiefDraw` on an empty deck, the `null`
  dereference that produces no outcome either);
* `CardEffects` (`src/models/CardEffects.js`) and the dice evaluator
  (`src/utils/diceRoller.js`) are embedded below in full.
-/

namespace WonderShuffle

/-- Abstract PRNG: an unbounded stream of raw naturals plus the position of the
next unconsumed element.  Models the sequential, stateful generator of
`rng.js`. -/
structure RandState where
  stream : Nat → Nat
  pos : Nat

/-- `randomInt(min, max)` from `rng.js`: consumes one stream element and
returns an integer in `[lo, hi]` inclusive. -/
def randomInt (lo hi : Nat) (s : RandState) : Nat × RandState :=
  (lo + s.stream s.pos % (hi - lo + 1), ⟨s.stream, s.pos + 1⟩)

/-! ## Deck (`src/models/DeckManager.js`) -/

/-- `TAROT_CARDS.FULL` from `src/constants.js`: the 22-card vocabulary. -/
def TAROT_FULL : List String :=
  ["beginning", "champion", "chancellor", "chaos", "coin", "crown", "dawn",
   "day", "destiny", "dusk", "end", "isolation", "justice", "knife", "lock",
   "mischief", "monster", "mystery", "night", "order", "student", "vulture"]

/-- `TAROT_CARDS.REDUCED` from `src/constants.js`: the named 13-card subset. -/
def TAROT_REDUCED : List String :=
  ["day", "night", "dawn", "crown", "lock", "champion", "chaos", "order",
   "beginning", "end", "monster", "knife", "mischief"]

/-- `DECK_CONFIG.MAX_DRAW` from `src/constants.js`. -/
def MAX_DRAW : Nat := 20

/-- The mutable fields of `DeckManager`. -/
structure DeckState where
  deck : List String
  deckSize : Nat

/-- The `size` argument of `DeckManager.createDeck`: a number (13 or 22),
`DECK_SIZES.CUSTOM`, or `null`. -/
inductive SizeArg where
  | byCount (n : Nat)
  | custom
  | unspecified

/-- One swap step of the Fisher-Yates loop in `DeckManager.shuffleDeck`:
`[arr[i], arr[j]] = [arr[j], arr[i]]`. -/
def swapIdx (l : List String) (i j : Nat) : List String :=
  (l.set i (l.getD j "")).set j (l.getD i "")

/-- The Fisher-Yates loop of `shuffleDeck`, counting the loop index `i`
downwards (`i` here is the JavaScript loop variable). -/
def shuffleGo : List String → Nat → RandState → List String × RandState
  | deck, 0, s => (deck, s)
  | deck, i + 1, s =>
    let (j, s1) := randomInt 0 (i + 1) s
    shuffleGo (swapIdx deck (i + 1) j) i s1

/-- `DeckManager.shuffleDeck`. -/
def shuffleDeck (deck : List String) (s : RandState) : List String × RandState :=
  shuffleGo deck (deck.length - 1) s

/-- `DeckManager.createDeck(size, customCards)`: installs the requested card
set (shuffled) and records the deck size.  There is no validation of any
kind: the custom branch installs whatever list was supplied (or `[]` when the
list is absent or empty). -/
def createDeck (st : DeckState) (size : SizeArg) (customCards : Option (List String))
    (s : RandState) : DeckState × RandState :=
  match size with
  | .custom =>
    let cardSet := match customCards with
      | some cs => if cs.length > 0 then cs else []
      | none => []
    (⟨(shuffleDeck cardSet s).1, cardSet.length⟩, (shuffleDeck cardSet s).2)
  | .byCount n =>
    let cardSet := if n = 13 then TAROT_REDUCED else TAROT_FULL
    (⟨(shuffleDeck cardSet s).1, n⟩, (shuffleDeck cardSet s).2)
  | .unspecified =>
    let cardSet := if st.deckSize = 13 then TAROT_REDUCED else TAROT_FULL
    (⟨(shuffleDeck cardSet s).1, st.deckSize⟩, (shuffleDeck cardSet s).2)

/-- One draw of `DeckManager.drawCards`'s loop body:
`deck[randomInt(0, deck.length - 1)]`, sampling with replacement. -/
def sampleOne (deck : List String) (s : RandState) : String × RandState :=
  let (i, s1) := randomInt 0 (deck.length - 1) s
  (deck.getD i "", s1)

/-- The sampling loop of `DeckManager.drawCards`: `count` sequential samples. -/
def drawN (deck : List String) : Nat → RandState → List String × RandState
  | 0, s => ([], s)
  | n + 1, s =>
    let (c, s1) := sampleOne deck s
    let (cs, s2) := drawN deck n s1
    (c :: cs, s2)

/-- `DeckManager.drawCards(count)`: `null` (here `none`) on an empty deck,
otherwise `count` cards sampled with replacement. -/
def drawCards (deck : List String) (count : Nat) (s : RandState) :
    Option (List String) × RandState :=
  if deck.length = 0 then (none, s)
  else
    let (cs, s1) := drawN deck count s
    (some cs, s1)

/-! ## Halt rule helpers (`main.js`) -/

/-- `Array.prototype.indexOf` restricted to the first occurrence, as an
`Option Nat` (JavaScript returns `-1` for absence). -/
def firstIndexOf (x : String) : List String → Option Nat
  | [] => none
  | a :: as => if a = x then some 0 else (firstIndexOf x as).map (· + 1)

/-- The halt-rule truncation used throughout `main.js`:
`cards.slice(0, cards.indexOf("isolation") + 1)` when "isolation" occurs. -/
def haltTruncate (cards : List String) : List String :=
  match firstIndexOf "isolation" cards with
  | some i => cards.take (i + 1)
  | none => cards

/-- The extension loop of `handleDrawCards` (`main.js` lines 129-140): one
iteration per mystery occurrence counted beforehand; each iteration draws one
card, appends it, and truncates-and-breaks if "isolation" has appeared. -/
def extendLoop (deck : List String) : Nat → List String → RandState →
    List String × RandState
  | 0, cards, s => (cards, s)
  | n + 1, cards, s =>
    match drawCards deck 1 s with
    | (some extra, s1) =>
      if extra.length > 0 then
        let cards1 := cards ++ extra
        match firstIndexOf "isolation" cards1 with
        | some i => (cards1.take (i + 1), s1)
        | none => extendLoop deck n cards1 s1
      else extendLoop deck n cards s1
    | (none, s1) => extendLoop deck n cards s1

/-- `CardGame.handleDrawCards(count)` from `main.js`, reduced to the value of
`this.drawnCards` it computes.  `none` models the early returns (invalid
count, count above `MAX_DRAW`, empty deck) in which no outcome is produced. -/
def handleDrawCards (deck : List String) (count : Nat) (s : RandState) :
    Option (List String) × RandState :=
  if count = 0 then (none, s)
  else if MAX_DRAW < count then (none, s)
  else if deck.length = 0 then (none, s)
  else
    match drawCards deck count s with
    | (none, s1) => (none, s1)
    | (some cards0, s1) =>
      let cards1 := haltTruncate cards0
      let mysteryCount := cards1.countP (· == "mystery")
      if mysteryCount > 0 ∧ "isolation" ∉ cards1 then
        (some (extendLoop deck mysteryCount cards1 s1).1,
         (extendLoop deck mysteryCount cards1 s1).2)
      else (some cards1, s1)

/-- The `splice(mischiefIndex, 1)` step of `handleMischiefDraw`: remove the
first "mischief" occurrence, if any. -/
def removeFirstMischief (drawn : List String) : List String :=
  match firstIndexOf "mischief" drawn with
  | some i => drawn.eraseIdx i
  | none => drawn

/-- `CardGame.handleMischiefDraw()` from `main.js`, reduced to the value of
`this.drawnCards` it computes from the current outcome `drawn`.  `none` models
the early return when "isolation" is already drawn (outcome unchanged), and
the `null` dereference on an empty deck (no outcome). -/
def handleMischiefDraw (deck drawn : List String) (s : RandState) :
    Option (List String) × RandState :=
  if "isolation" ∈ drawn then (none, s)
  else
    match drawCards deck 2 s with
    | (none, s1) => (none, s1)
    | (some newCards0, s1) =>
      let newCards :=
        if h : newCards0.length > 0 then
          if newCards0.get ⟨0, h⟩ = "isolation" then [newCards0.get ⟨0, h⟩]
          else if newCards0.length > 1 ∧ newCards0.getD 1 "" = "isolation" then
            newCards0.take 2
          else newCards0
        else newCards0
      let drawn1 := removeFirstMischief drawn
      let combined := drawn1 ++ newCards
      (some (haltTruncate combined), s1)

/-! ## Card effects (`src/models/CardEffects.js`) -/

/-- One entry of the `choices` array returned for the "coin" card. -/
structure CoinChoice where
  value : String
  label : String
  quantity : Nat
  worth : Nat

/-- The shapes a `CardEffects.getEffect` result can take: a plain string, a
`{text, isCurse: true}` object, or one of the tagged objects for "chaos",
"order", "coin" and "mischief".  Only curse objects carry `isCurse`. -/
inductive Effect where
  | text (t : String)
  | curse (t : String)
  | chaosChoice (count : Nat) (damageTypes : List String)
  | orderChoice (count : Nat) (damageTypes : List String)
  | coinChoice (count : Nat) (choices : List CoinChoice)
  | mischiefOffer (count : Nat) (t : String)

/-- `CardEffects.getEffect(cardName, count)`: `none` when `count` is zero or
the identifier has no case in the rule table. -/
def getEffect (cardName : String) (count : Nat) : Option Effect :=
  if count = 0 then none
  else
    match cardName with
    | "beginning" =>
      let d10Count := 2 * count
      some (.text s!"Your hit point maximum and current hit points increase by {d10Count}d10. Your hit point maximum remains increased in this way for the next 8 hours.")
    | "champion" =>
      let bonus := count
      some (.text s!"You gain a +{bonus} bonus to weapon attack and damage rolls. This bonus lasts for 8 hours.")
    | "chancellor" =>
      some (.text "Within 8 hours of drawing this card, you can cast Augury once as an action, requiring no material components. Use your Intelligence, Wisdom, or Charisma as the spellcasting ability (your choice).")
    | "chaos" =>
      some (.chaosChoice count ["acid", "cold", "fire", "lightning", "thunder"])
    | "coin" =>
      some (.coinChoice count
        [⟨"jewelry", "Jewelry", 5, 100⟩, ⟨"gemstones", "Gemstones", 10, 50⟩])
    | "crown" =>
      some (.text "You learn the Friends cantrip. Use your Intelligence, Wisdom, or Charisma as the spellcasting ability (your choice). If you already know this cantrip, the card has no effect.")
    | "dawn" =>
      some (.text "This card invigorates you. For the next 8 hours, you can add your proficiency bonus to your initiative rolls.")
    | "day" =>
      let bonus := count
      some (.text s!"You gain a +{bonus} bonus to saving throws. This benefit lasts until you finish a long rest.")
    | "destiny" =>
      some (.text "This card protects you against an untimely demise. The first time after drawing this card that you would drop to 0 hit points from taking damage, you instead drop to 1 hit point.")
    | "dusk" =>
      some (.curse "This card supernaturally saps your energy. You have disadvantage on initiative rolls. This effect lasts until you finish a long rest, but it can be ended early by a Remove Curse spell or similar magic.")
    | "end" =>
      let d10Count := 2 * count
      some (.curse s!"This card is an omen of death. You take {d10Count}d10 necrotic damage, and your hit point maximum is reduced by an amount equal to the damage taken. This effect can\x27t reduce your hit point maximum below 10 hit points. This reduction lasts until you finish a long rest, but it can be ended early by a Remove Curse spell or similar magic.")
    | "isolation" =>
      some (.curse "You disappear, along with anything you are wearing or carrying, and become trapped in a harmless extradimensional space for 1d4 minutes. You draw no more cards. You then reappear in the space you left or the nearest unoccupied space. When you reappear, you must succeed on a DC 11 Constitution saving throw or have the poisoned condition for 1 hour as your body reels from the extradimensional travel.")
    | "justice" =>
      some (.text "You momentarily gain the ability to balance the scales of fate. For the next 8 hours, whenever you or a creature within 60 feet of you is about to roll a d20 with advantage or disadvantage, you can use your reaction to prevent the roll from being affected by advantage or disadvantage.")
    | "knife" =>
      let weaponCount := if count = 1 then "An" else toString count
      let weaponText := if count = 1 then "weapon" else "weapons"
      let appearText := if count = 1 then "appears" else "appear"
      some (.text s!"{weaponCount} uncommon magic {weaponText} you\x27re proficient with {appearText} in your hands. The DM chooses the {weaponText}.")
    | "lock" =>
      let d3Count := count
      some (.text s!"You gain the ability to cast Knock {d3Count}d3 times. Use your Intelligence, Wisdom, or Charisma as the spellcasting ability (your choice).")
    | "monster" =>
      let d4Count := count
      some (.curse s!"This card\x27s monstrous visage curses you. While cursed in this way, whenever you make a saving throw, you must roll {d4Count}d4 and subtract the number rolled from the total. The curse lasts until you finish a long rest, but it can be ended early with a Remove Curse spell or similar magic.")
    | "mystery" =>
      some (.curse "You have disadvantage on Intelligence saving throws for 1 hour. Discard this card and draw from the deck again; together, the two draws count as one of your declared draws.")
    | "night" =>
      some (.text "You gain darkvision within a range of 300 feet. This darkvision lasts for 8 hours.")
    | "order" =>
      some (.orderChoice count ["force", "necrotic", "poison", "psychic", "radiant"])
    | "student" =>
      some (.text "You gain proficiency in Wisdom saving throws. If you already have this proficiency, you instead gain proficiency in Intelligence or Charisma saving throws (your choice).")
    | "vulture" =>
      let itemText := if count = 1 then "item or piece of equipment" else "items or pieces of equipment"
      let numberText := if count = 1 then "One" else toString count
      let vanishText := if count = 1 then "disappears" else "disappear"
      let itemsWord := if count = 1 then "item" else "items"
      let canText := if count = 1 then "it can" else "they can"
      let recoverText := if count = 1 then "item isn\x27t" else "items aren\x27t"
      let foreverText := if count = 1 then "it disappears" else "they disappear"
      some (.curse s!"{numberText} nonmagical {itemText} in your possession (chosen by the DM) {vanishText}. The {itemsWord} remain nearby but concealed for a short time, so {canText} be found with a successful DC 15 Wisdom (Perception) check. If the {recoverText} recovered within 1 hour, {foreverText} forever.")
    | "mischief" =>
      let additionalCards := count * 2
      let recvText := if count = 1 then "an" else toString count
      let itemText := if count = 1 then "item" else "items"
      let cardWord := if additionalCards = 1 then "card" else "cards"
      some (.mischiefOffer count s!"You receive {recvText} uncommon wondrous {itemText} (chosen by the DM), or you can draw {additionalCards} additional {cardWord} beyond your declared draws.")
    | _ => none

/-- Whether an identifier has an entry in the rule table (it yields an effect
for a positive count). -/
def hasRule (c : String) : Bool := (getEffect c 1).isSome

/-- One step of `CardEffects.countCards`: `counts.set(card, (counts.get(card)
|| 0) + 1)` on an insertion-ordered association list (JavaScript `Map`
semantics: a key keeps the position of its first insertion). -/
def insertCount : List (String × Nat) → String → List (String × Nat)
  | [], c => [(c, 1)]
  | (k, n) :: rest, c =>
    if k = c then (k, n + 1) :: rest else (k, n) :: insertCount rest c

/-- `CardEffects.countCards(drawnCards)`. -/
def countCards (drawn : List String) : List (String × Nat) :=
  drawn.foldl insertCount []

/-- An entry pushed onto `regularEffects` in `calculateEffects`. -/
structure EffectData where
  card : String
  count : Nat
  eff : Effect

/-- An entry pushed onto `curseEffects` in `calculateEffects` (the curse text
replaces the effect object). -/
structure CurseData where
  card : String
  count : Nat
  text : String

/-- The loop of `CardEffects.calculateEffects` over the tally entries. -/
def calcLoop : List (String × Nat) → List EffectData × List CurseData
  | [] => ([], [])
  | (c, n) :: rest =>
    match getEffect c n with
    | none => calcLoop rest
    | some (.curse t) => ((calcLoop rest).1, ⟨c, n, t⟩ :: (calcLoop rest).2)
    | some e => (⟨c, n, e⟩ :: (calcLoop rest).1, (calcLoop rest).2)

/-- `CardEffects.calculateEffects(drawnCards)`: the `{regular, curses}`
partition. -/
def calculateEffects (drawn : List String) : List EffectData × List CurseData :=
  if drawn.isEmpty then ([], [])
  else calcLoop (countCards drawn)

/-- `CardEffects.calculateChaosDurations(selections)`: tally of selected
damage types (JavaScript `Map` built exactly like `countCards`). -/
def calculateChaosDurations (selections : List String) : List (String × Nat) :=
  selections.foldl insertCount []

/-- `CardEffects.calculateOrderDurations(selections)`: identical tally. -/
def calculateOrderDurations (selections : List String) : List (String × Nat) :=
  selections.foldl insertCount []

/-! ## Dice evaluator (`src/utils/diceRoller.js`) -/

/-- `\w` of the dice regex (no unicode flag): ASCII letters, digits, `_`. -/
def isWordChar (c : Char) : Bool := c.isAlphanum || c == '_'

/-- Decimal value of a digit run (`parseInt(_, 10)`). -/
def digitsToNat (ds : List Char) : Nat :=
  ds.foldl (fun acc c => acc * 10 + (c.toNat - '0'.toNat)) 0

/-- Whether `pat` occurs as a contiguous run inside `l`
(`String.prototype.includes`). -/
def containsRun (pat : List Char) : List Char → Bool
  | [] => pat.isEmpty
  | c :: cs => pat.isPrefixOf (c :: cs) || containsRun pat cs

/-- The anchored shape `^(\d+)d(\d+)(?:kh1)?$` of both dice regexes, applied
to one word-boundary token: the two digit runs and whether the `kh1` suffix is
present.  (Both digit runs are maximal, since neither `d` nor `k` is a
digit, so greedy matching and this span-based reading agree.) -/
def parseDiceShape (tok : List Char) : Option (Nat × Nat × Bool) :=
  let d1 := tok.takeWhile (·.isDigit)
  let r1 := tok.dropWhile (·.isDigit)
  if d1.isEmpty then none
  else
    match r1 with
    | 'd' :: r2 =>
      let d2 := r2.takeWhile (·.isDigit)
      let r3 := r2.dropWhile (·.isDigit)
      if d2.isEmpty then none
      else if r3.isEmpty then some (digitsToNat d1, digitsToNat d2, false)
      else if r3 = ['k', 'h', '1'] then some (digitsToNat d1, digitsToNat d2, true)
      else none
    | _ => none

/-- The `{quantity, sides, keepHighest}` record of `parseDiceExpression`. -/
structure DiceParse where
  quantity : Nat
  sides : Nat
  keepHighest : Bool
deriving DecidableEq

/-- `parseDiceExpression(diceExpression)`: the regex match, `parseInt` of the
groups, `keepHighest` via `includes("kh1")`, and the `quantity < 1 || sides <
1` validation returning `null`. -/
def parseDiceExpression (tok : String) : Option DiceParse :=
  match parseDiceShape tok.data with
  | none => none
  | some (q, sd, _) =>
    let kh := containsRun ['k', 'h', '1'] tok.data
    if q < 1 ∨ sd < 1 then none else some ⟨q, sd, kh⟩

/-- The keep-highest loop of `rollDiceExpression`: running maximum (starting
at 0) of `quantity` rolls of `randomInt(1, sides)`. -/
def khLoop (sides : Nat) : Nat → Nat → RandState → Nat × RandState
  | 0, acc, s => (acc, s)
  | n + 1, acc, s =>
    let (r, s1) := randomInt 1 sides s
    khLoop sides n (max acc r) s1

/-- The summing loop of `rollDiceExpression`. -/
def sumLoop (sides : Nat) : Nat → Nat → RandState → Nat × RandState
  | 0, acc, s => (acc, s)
  | n + 1, acc, s =>
    let (r, s1) := randomInt 1 sides s
    sumLoop sides n (acc + r) s1

/-- `rollDiceExpression(diceExpression)`: 0 (with a logged diagnostic, not
modelled) when the parse fails, otherwise the max of the rolls under `kh1`
and their sum otherwise. -/
def rollDiceExpression (tok : String) (s : RandState) : Nat × RandState :=
  match parseDiceExpression tok with
  | none => (0, s)
  | some p =>
    if p.keepHighest then
      if p.quantity = 0 then (0, s)
      else khLoop p.sides p.quantity 0 s
    else sumLoop p.sides p.quantity 0 s

/-- One replacement of `text.replace(dicePattern, ...)`: a word-boundary token
matching the regex shape is replaced by the rolled value's decimal digits; any
other token is left as is. -/
def replaceToken (tok : List Char) (s : RandState) : List Char × RandState :=
  match parseDiceShape tok with
  | none => (tok, s)
  | some _ =>
    let (v, s1) := rollDiceExpression ⟨tok⟩ s
    ((toString v).data, s1)

/-- `rollDiceInText`'s global regex scan.  A match of
`/\b(\d+d\d+(?:kh1)?)\b/g` must start and end at word boundaries, so the
matched tokens are exactly the maximal word-character runs that wholly match
the shape.  The scan walks the text once, accumulating the current
word-character run in `acc` (reversed) and flushing it through `replaceToken`
at every word boundary, threading the shared PRNG left to right. -/
def replaceDiceRuns (acc : List Char) : List Char → RandState → List Char × RandState
  | [], s => ((replaceToken acc.reverse s).1, (replaceToken acc.reverse s).2)
  | c :: cs, s =>
    if isWordChar c then replaceDiceRuns (c :: acc) cs s
    else
      ((replaceToken acc.reverse s).1 ++
         c :: (replaceDiceRuns [] cs (replaceToken acc.reverse s).2).1,
       (replaceDiceRuns [] cs (replaceToken acc.reverse s).2).2)

/-- `rollDiceInText(text)`. -/
def rollDiceInText (text : String) (s : RandState) : String × RandState :=
  (⟨(replaceDiceRuns [] text.data s).1⟩, (replaceDiceRuns [] text.data s).2)

/-! ## Resistance duration rendering
(`src/renderers/effectRenderers/EffectRenderers.js`) -/

/-- The per-damage-type dice text of `renderChaosEffect` / `renderOrderEffect`
(both compute the same string): a bare die for a tally of 1, a `kh1`-suffixed
expression for larger tallies. -/
def durationDiceText (d12Count : Nat) : String :=
  if d12Count = 1 then s!"{d12Count}d12" else s!"{d12Count}d12kh1"

/-! ## Statement-level helpers -/

/-- The halt invariant on a finished outcome: if "isolation" occurs, its first
occurrence is the last element. -/
def haltOk (out : List String) : Bool :=
  match firstIndexOf "isolation" out with
  | none => true
  | some i => i + 1 == out.length

/-- Modelled from the spec (§4.3 step 3, the extend rule), for comparison with
the extension loop of `handleDrawCards`: one additional card is drawn and
appended per extend-card occurrence counted beforehand; after each appended
card the halt rule is re-checked, and an appended halt card ends the pass
immediately.  Returns only the appended suffix. -/
def extendRuleSpec (deck : List String) : Nat → RandState → List String × RandState
  | 0, s => ([], s)
  | n + 1, s =>
    if (sampleOne deck s).1 = "isolation" then
      ([(sampleOne deck s).1], (sampleOne deck s).2)
    else
      ((sampleOne deck s).1 :: (extendRuleSpec deck n (sampleOne deck s).2).1,
       (extendRuleSpec deck n (sampleOne deck s).2).2)

/-! ## Lemmas: first occurrence and the halt rule -/

theorem firstIndexOf_eq_none {x : String} {l : List String} :
    firstIndexOf x l = none ↔ x ∉ l := by
  induction l with
  | nil => simp [firstIndexOf]
  | cons a as ih =>
    by_cases h : a = x
    · subst h
      simp [firstIndexOf]
    · simp [firstIndexOf, h, ih, Ne.symm h]

theorem firstIndexOf_some_spec {x : String} {l : List String} {i : Nat}
    (h : firstIndexOf x l = some i) :
    i < l.length ∧ x ∉ l.take i ∧ l.take (i + 1) = l.take i ++ [x] := by
  induction l generalizing i with
  | nil => simp [firstIndexOf] at h
  | cons a as ih =>
    by_cases hax : a = x
    · subst hax
      simp [firstIndexOf] at h
      subst h
      simp
    · simp only [firstIndexOf, if_neg hax, Option.map_eq_some'] at h
      obtain ⟨j, hj, rfl⟩ := h
      obtain ⟨h1, h2, h3⟩ := ih hj
      refine ⟨Nat.succ_lt_succ h1, ?_, ?_⟩
      · simp [List.take, List.mem_cons, Ne.symm hax, h2]
      · simp [List.take, h3]

theorem firstIndexOf_append_of_not_mem {x : String} {l₁ : List String}
    (h : x ∉ l₁) (l₂ : List String) :
    firstIndexOf x (l₁ ++ l₂) = (firstIndexOf x l₂).map (· + l₁.length) := by
  induction l₁ with
  | nil => cases hfi : firstIndexOf x l₂ <;> simp [hfi]
  | cons a as ih =>
    have hax : ¬a = x := fun hh => h (hh ▸ List.mem_cons_self a as)
    have has : x ∉ as := fun hh => h (List.mem_cons_of_mem a hh)
    cases hfi : firstIndexOf x l₂ with
    | none => simp [firstIndexOf, hax, ih has, hfi]
    | some j =>
      simp [firstIndexOf, hax, ih has, hfi, Nat.add_assoc]

theorem haltOk_of_not_mem {l : List String} (h : "isolation" ∉ l) :
    haltOk l = true := by
  simp [haltOk, firstIndexOf_eq_none.2 h]

theorem haltTruncate_of_not_mem {l : List String} (h : "isolation" ∉ l) :
    haltTruncate l = l := by
  simp [haltTruncate, firstIndexOf_eq_none.2 h]

theorem haltOk_haltTruncate (l : List String) : haltOk (haltTruncate l) = true := by
  cases hfi : firstIndexOf "isolation" l with
  | none =>
    rw [haltTruncate_of_not_mem (firstIndexOf_eq_none.1 hfi)]
    exact haltOk_of_not_mem (firstIndexOf_eq_none.1 hfi)
  | some i =>
    obtain ⟨hlt, hnot, htake⟩ := firstIndexOf_some_spec hfi
    have hlen : (l.take i).length = i := by
      simp [List.length_take, Nat.le_of_lt hlt]
    have hstep : haltTruncate l = l.take (i + 1) := by
      unfold haltTruncate
      rw [hfi]
    rw [hstep]
    have h2 : firstIndexOf "isolation" (l.take (i + 1)) = some i := by
      rw [htake, firstIndexOf_append_of_not_mem hnot]
      simp [firstIndexOf, hlen]
    unfold haltOk
    rw [h2]
    have hmin : min (i + 1) l.length = i + 1 := Nat.min_eq_left (by omega)
    simp [List.length_take, hmin]

theorem haltTruncate_append {l₁ : List String} (h : "isolation" ∉ l₁)
    (l₂ : List String) :
    haltTruncate (l₁ ++ l₂) = l₁ ++ haltTruncate l₂ := by
  unfold haltTruncate
  rw [firstIndexOf_append_of_not_mem h]
  cases hfi : firstIndexOf "isolation" l₂ with
  | none => simp
  | some i =>
    simp only [Option.map_some']
    have : i + l₁.length + 1 = l₁.length + (i + 1) := by omega
    rw [this, List.take_append]

/-! ## Lemmas: sampling -/

theorem sampleOne_snd (deck : List String) (s : RandState) :
    (sampleOne deck s).2 = ⟨s.stream, s.pos + 1⟩ := rfl

theorem sampleOne_mem {deck : List String} (hd : deck ≠ []) (s : RandState) :
    (sampleOne deck s).1 ∈ deck := by
  have hpos : 0 < deck.length := List.length_pos.2 hd
  have hidx : 0 + s.stream s.pos % (deck.length - 1 - 0 + 1) < deck.length := by
    have h1 : deck.length - 1 + 1 = deck.length := Nat.succ_pred_eq_of_pos hpos
    simpa [h1] using Nat.mod_lt (s.stream s.pos) hpos
  show deck.getD _ "" ∈ deck
  rw [List.getD_eq_getElem deck "" (by simpa [randomInt] using hidx)]
  exact List.getElem_mem _

theorem drawN_snd (deck : List String) (n : Nat) (s : RandState) :
    (drawN deck n s).2 = ⟨s.stream, s.pos + n⟩ := by
  induction n generalizing s with
  | zero => rfl
  | succ k ih =>
    simp only [drawN, ih, sampleOne_snd]
    congr 1
    omega

theorem drawN_length (deck : List String) (n : Nat) (s : RandState) :
    (drawN deck n s).1.length = n := by
  induction n generalizing s with
  | zero => rfl
  | succ k ih => simp [drawN, ih]

theorem drawN_mem {deck : List String} (hd : deck ≠ []) (n : Nat) (s : RandState) :
    ∀ c ∈ (drawN deck n s).1, c ∈ deck := by
  induction n generalizing s with
  | zero => simp [drawN]
  | succ k ih =>
    intro c hc
    simp only [drawN, List.mem_cons] at hc
    rcases hc with hc | hc
    · exact hc ▸ sampleOne_mem hd s
    · exact ih _ c hc

theorem drawCards_of_ne {deck : List String} (hd : deck ≠ []) (n : Nat)
    (s : RandState) :
    drawCards deck n s = (some (drawN deck n s).1, (drawN deck n s).2) := by
  simp [drawCards, List.length_eq_zero, hd]

theorem drawN_one (deck : List String) (s : RandState) :
    drawN deck 1 s = ([(sampleOne deck s).1], (sampleOne deck s).2) := by
  simp [drawN]

theorem drawN_two (deck : List String) (s : RandState) :
    drawN deck 2 s =
      ([(sampleOne deck s).1, (sampleOne deck (sampleOne deck s).2).1],
       (sampleOne deck (sampleOne deck s).2).2) := by
  simp [drawN]

/-! ## Lemmas: the extension pass -/

theorem extendLoop_step {deck : List String} (hd : deck ≠ []) (k : Nat)
    (cards : List String) (s : RandState) :
    extendLoop deck (k + 1) cards s =
      (match firstIndexOf "isolation" (cards ++ [(sampleOne deck s).1]) with
       | some i => ((cards ++ [(sampleOne deck s).1]).take (i + 1), (sampleOne deck s).2)
       | none => extendLoop deck k (cards ++ [(sampleOne deck s).1]) (sampleOne deck s).2) := by
  rw [extendLoop, drawCards_of_ne hd, drawN_one]
  simp

theorem extendLoop_eq {deck : List String} (hd : deck ≠ []) (n : Nat) :
    ∀ (cards : List String) (s : RandState), "isolation" ∉ cards →
    extendLoop deck n cards s =
      (cards ++ (extendRuleSpec deck n s).1, (extendRuleSpec deck n s).2) := by
  induction n with
  | zero =>
    intro cards s _
    simp [extendLoop, extendRuleSpec]
  | succ k ih =>
    intro cards s hiso
    rw [extendLoop_step hd]
    by_cases hc : (sampleOne deck s).1 = "isolation"
    · have hfi : firstIndexOf "isolation" (cards ++ [(sampleOne deck s).1]) =
          some cards.length := by
        rw [firstIndexOf_append_of_not_mem hiso]
        simp [firstIndexOf, hc]
      rw [hfi, extendRuleSpec, if_pos hc]
      simp [List.take_append]
    · have hfi : firstIndexOf "isolation" (cards ++ [(sampleOne deck s).1]) = none := by
        rw [firstIndexOf_append_of_not_mem hiso]
        simp [firstIndexOf, hc]
      have hiso1 : "isolation" ∉ cards ++ [(sampleOne deck s).1] := by
        simp only [List.mem_append, List.mem_singleton]
        rintro (hh | hh)
        · exact hiso hh
        · exact hc hh.symm
      rw [hfi, ih _ _ hiso1, extendRuleSpec, if_neg hc]
      simp

theorem haltOk_append_extendRuleSpec {deck : List String} (n : Nat) :
    ∀ (cards : List String) (s : RandState), "isolation" ∉ cards →
    haltOk (cards ++ (extendRuleSpec deck n s).1) = true := by
  induction n with
  | zero =>
    intro cards s hiso
    simpa [extendRuleSpec] using haltOk_of_not_mem hiso
  | succ k ih =>
    intro cards s hiso
    rw [extendRuleSpec]
    by_cases hc : (sampleOne deck s).1 = "isolation"
    · rw [if_pos hc]
      have hfi : firstIndexOf "isolation" (cards ++ [(sampleOne deck s).1]) =
          some cards.length := by
        rw [firstIndexOf_append_of_not_mem hiso]
        simp [firstIndexOf, hc]
      unfold haltOk
      rw [hfi]
      simp
    · rw [if_neg hc]
      have hiso1 : "isolation" ∉ cards ++ [(sampleOne deck s).1] := by
        simp only [List.mem_append, List.mem_singleton]
        rintro (hh | hh)
        · exact hiso hh
        · exact hc hh.symm
      have := ih (cards ++ [(sampleOne deck s).1]) (sampleOne deck s).2 hiso1
      simpa using this

/-! ## Lemmas: the draw resolver -/

theorem handleDrawCards_run {deck : List String} (hd : deck ≠ []) (count : Nat)
    (h1 : count ≠ 0) (h2 : ¬MAX_DRAW < count) (s : RandState) :
    handleDrawCards deck count s =
      (if 0 < (haltTruncate (drawN deck count s).1).countP (· == "mystery") ∧
          "isolation" ∉ haltTruncate (drawN deck count s).1 then
        (some (extendLoop deck
            ((haltTruncate (drawN deck count s).1).countP (· == "mystery"))
            (haltTruncate (drawN deck count s).1) (drawN deck count s).2).1,
         (extendLoop deck
            ((haltTruncate (drawN deck count s).1).countP (· == "mystery"))
            (haltTruncate (drawN deck count s).1) (drawN deck count s).2).2)
      else (some (haltTruncate (drawN deck count s).1), (drawN deck count s).2)) := by
  have hlen : ¬deck.length = 0 := by simpa [List.length_eq_zero] using hd
  rw [handleDrawCards, if_neg h1, if_neg h2, if_neg hlen, drawCards_of_ne hd]

/-- C1: every outcome a completed draw resolution or bonus draw produces
satisfies the halt invariant — if "isolation" occurs at all, its first
occurrence is the final element of the outcome. -/
theorem drawOutcome_halt_invariant :
    (∀ (deck : List String) (count : Nat) (s : RandState) (out : List String),
      (handleDrawCards deck count s).1 = some out → haltOk out = true) ∧
    (∀ (deck drawn : List String) (s : RandState) (out : List String),
      (handleMischiefDraw deck drawn s).1 = some out → haltOk out = true) := by
  constructor
  · intro deck count s out h
    by_cases h1 : count = 0
    · simp [handleDrawCards, h1] at h
    by_cases h2 : MAX_DRAW < count
    · simp [handleDrawCards, h1, h2] at h
    by_cases hd : deck = []
    · simp [handleDrawCards, h1, h2, hd, drawCards] at h
    rw [handleDrawCards_run hd count h1 h2] at h
    by_cases hcond : 0 < (haltTruncate (drawN deck count s).1).countP (· == "mystery") ∧
        "isolation" ∉ haltTruncate (drawN deck count s).1
    · rw [if_pos hcond] at h
      simp only [Option.some.injEq] at h
      rw [extendLoop_eq hd _ _ _ hcond.2] at h
      rw [← h]
      exact haltOk_append_extendRuleSpec _ _ _ hcond.2
    · rw [if_neg hcond] at h
      simp only [Option.some.injEq] at h
      rw [← h]
      exact haltOk_haltTruncate _
  · intro deck drawn s out h
    by_cases hiso : "isolation" ∈ drawn
    · simp [handleMischiefDraw, hiso] at h
    by_cases hd : deck = []
    · simp [handleMischiefDraw, hiso, hd, drawCards] at h
    rw [handleMischiefDraw] at h
    rw [if_neg hiso, drawCards_of_ne hd, drawN_two] at h
    simp only [Option.some.injEq] at h
    rw [← h]
    exact haltOk_haltTruncate _

/-- C2: when "isolation" is absent from the `count` initially drawn cards,
`handleDrawCards` behaves exactly as the spec's extend rule: one extra card is
drawn and appended per "mystery" occurrence in the original sequence (the
count is taken from that original sequence only, so extension cards never
re-trigger, and no draw ceiling applies to the appended cards), re-checking
the halt rule after every append and stopping early when the appended card is
"isolation". -/
theorem handleDrawCards_extendRule {deck : List String} {count : Nat}
    {s : RandState} (hd : deck ≠ []) (h1 : 1 ≤ count) (h2 : count ≤ MAX_DRAW)
    (hiso : "isolation" ∉ (drawN deck count s).1) :
    handleDrawCards deck count s =
      (some ((drawN deck count s).1 ++
        (extendRuleSpec deck ((drawN deck count s).1.countP (· == "mystery"))
          (drawN deck count s).2).1),
       (extendRuleSpec deck ((drawN deck count s).1.countP (· == "mystery"))
          (drawN deck count s).2).2) := by
  rw [handleDrawCards_run hd count (by omega) (by omega),
    haltTruncate_of_not_mem hiso]
  by_cases hm : 0 < (drawN deck count s).1.countP (· == "mystery")
  · rw [if_pos ⟨hm, hiso⟩, extendLoop_eq hd _ _ _ hiso]
  · have hz : (drawN deck count s).1.countP (· == "mystery") = 0 := by omega
    rw [hz]
    simp [extendRuleSpec]

/-! ## Lemmas: the bonus draw -/

theorem removeFirstMischief_eq_erase (l : List String) :
    removeFirstMischief l = l.erase "mischief" := by
  induction l with
  | nil => rfl
  | cons a as ih =>
    by_cases h : a = "mischief"
    · subst h
      have h0 : firstIndexOf "mischief" ("mischief" :: as) = some 0 := by
        rw [firstIndexOf, if_pos rfl]
      rw [removeFirstMischief, h0]
      simp [List.eraseIdx]
    · rw [removeFirstMischief] at ih ⊢
      have hbeq : ¬(a == "mischief") := by simpa using h
      cases hfi : firstIndexOf "mischief" as with
      | none =>
        simp only [firstIndexOf, if_neg h, hfi, Option.map_none']
        rw [List.erase_cons_tail hbeq,
          List.erase_of_not_mem (firstIndexOf_eq_none.1 hfi)]
      | some i =>
        simp only [firstIndexOf, if_neg h, hfi, Option.map_some']
        rw [List.erase_cons_tail hbeq]
        simpa [List.eraseIdx, hfi] using ih

theorem removeFirstMischief_count (l : List String) :
    (removeFirstMischief l).count "mischief" = l.count "mischief" - 1 := by
  rw [removeFirstMischief_eq_erase]
  exact List.count_erase_self _ _

theorem removeFirstMischief_not_mem {x : String} {l : List String} (h : x ∉ l) :
    x ∉ removeFirstMischief l := by
  rw [removeFirstMischief_eq_erase]
  exact fun hm => h (List.mem_of_mem_erase hm)

theorem handleMischiefDraw_run {deck drawn : List String} (hd : deck ≠ [])
    (hiso : "isolation" ∉ drawn) (s : RandState) :
    handleMischiefDraw deck drawn s =
      (some (haltTruncate (removeFirstMischief drawn ++
        (if (sampleOne deck s).1 = "isolation" then [(sampleOne deck s).1]
         else [(sampleOne deck s).1, (sampleOne deck (sampleOne deck s).2).1]))),
       ⟨s.stream, s.pos + 2⟩) := by
  have hsnd : (drawN deck 2 s).2 = ⟨s.stream, s.pos + 2⟩ := drawN_snd deck 2 s
  rw [handleMischiefDraw, if_neg hiso, drawCards_of_ne hd] at *
  rw [drawN_two] at hsnd ⊢
  rw [hsnd]
  by_cases hc : (sampleOne deck s).1 = "isolation"
  · simp [hc]
  · simp [hc, List.take]

/-- C4: when the current outcome already contains "isolation", the bonus draw
fails (no outcome is produced) and nothing changes — no card is drawn (the
PRNG state is untouched) and the outcome is neither truncated nor extended. -/
theorem handleMischiefDraw_haltPresent {deck drawn : List String}
    {s : RandState} (h : "isolation" ∈ drawn) :
    handleMischiefDraw deck drawn s = (none, s) := by
  simp [handleMischiefDraw, h]

/-- C5: when "isolation" is absent from the current outcome, the bonus draw
consumes exactly two sampler calls (the final PRNG position is `pos + 2`); if
the first drawn card is "isolation" the second drawn card is discarded and the
outcome ends at that halt card, otherwise both drawn cards are appended and
the halt rule is re-applied to the complete updated sequence. -/
theorem handleMischiefDraw_spec {deck drawn : List String} {s : RandState}
    (hd : deck ≠ []) (hiso : "isolation" ∉ drawn) :
    handleMischiefDraw deck drawn s =
      (some (if (sampleOne deck s).1 = "isolation" then
          removeFirstMischief drawn ++ [(sampleOne deck s).1]
        else
          haltTruncate (removeFirstMischief drawn ++
            [(sampleOne deck s).1, (sampleOne deck (sampleOne deck s).2).1])),
       ⟨s.stream, s.pos + 2⟩) := by
  rw [handleMischiefDraw_run hd hiso]
  by_cases hc : (sampleOne deck s).1 = "isolation"
  · rw [if_pos hc, if_pos hc]
    have hiso1 : "isolation" ∉ removeFirstMischief drawn :=
      removeFirstMischief_not_mem hiso
    rw [haltTruncate_append hiso1]
    have : haltTruncate [(sampleOne deck s).1] = [(sampleOne deck s).1] := by
      rw [hc]
      rfl
    rw [this]
  · rw [if_neg hc, if_neg hc]

/-- C10: a bonus draw whose precondition holds removes exactly one of the `k`
original "mischief" occurrences: the resulting outcome carries `k - 1` of them
plus whatever "mischief" cards among the newly drawn cards survive the final
halt-rule truncation. -/
theorem handleMischiefDraw_mischiefCount {deck drawn : List String}
    {s : RandState} (hd : deck ≠ []) (hiso : "isolation" ∉ drawn)
    (hk : 1 ≤ drawn.count "mischief") :
    ∃ res, (handleMischiefDraw deck drawn s).1 = some res ∧
      res.count "mischief" = (drawn.count "mischief" - 1) +
        (haltTruncate (if (sampleOne deck s).1 = "isolation" then
            [(sampleOne deck s).1]
          else
            [(sampleOne deck s).1,
             (sampleOne deck (sampleOne deck s).2).1])).count "mischief" := by
  rw [handleMischiefDraw_run hd hiso]
  refine ⟨_, rfl, ?_⟩
  rw [haltTruncate_append (removeFirstMischief_not_mem hiso),
    List.count_append, removeFirstMischief_count]

/-! ## C3: outcome length without halt and extend cards -/

/-- C3 counterexample: the resolver enforces `MAX_DRAW = 20` itself, so at
`n = 21` — although `n ≥ 1`, the deck is non-empty and free of halt and
extend cards — no outcome at all is produced, contradicting
`|resolveDraw(n)| = n` "for all n ≥ 1". -/
theorem handleDrawCards_ceiling_counterexample :
    (["champion"] : List String) ≠ [] ∧
    "isolation" ∉ (["champion"] : List String) ∧
    "mystery" ∉ (["champion"] : List String) ∧
    1 ≤ 21 ∧
    (handleDrawCards ["champion"] 21 ⟨fun _ => 0, 0⟩).1 = none := by
  exact ⟨by decide, by decide, by decide, by decide, rfl⟩

/-- C3 (amended): for every `1 ≤ n ≤ MAX_DRAW`, if the deck is non-empty and
contains neither the halt card nor the extend card, the resolver produces an
outcome of length exactly `n`. -/
theorem handleDrawCards_length {deck : List String} {n : Nat} {s : RandState}
    (hd : deck ≠ []) (hiso : "isolation" ∉ deck) (hmys : "mystery" ∉ deck)
    (h1 : 1 ≤ n) (h2 : n ≤ MAX_DRAW) :
    ∃ out, (handleDrawCards deck n s).1 = some out ∧ out.length = n := by
  have hisoD : "isolation" ∉ (drawN deck n s).1 :=
    fun hm => hiso (drawN_mem hd n s _ hm)
  have hmysD : "mystery" ∉ (drawN deck n s).1 :=
    fun hm => hmys (drawN_mem hd n s _ hm)
  rw [handleDrawCards_run hd n (by omega) (by omega),
    haltTruncate_of_not_mem hisoD]
  have hm0 : (drawN deck n s).1.countP (· == "mystery") = 0 := by
    rw [List.countP_eq_zero]
    intro a ha
    simp only [beq_iff_eq]
    exact fun hh => hmysD (hh ▸ ha)
  rw [if_neg (by simp [hm0])]
  exact ⟨_, rfl, drawN_length deck n s⟩

/-! ## C6: deck configuration performs no validation -/

theorem getD_cons_set_perm (a : String) :
    ∀ (as : List String) (j : Nat), j < as.length →
    List.Perm (as.getD j "" :: as.set j a) (a :: as) := by
  intro as
  induction as with
  | nil => intro j hj; cases hj
  | cons b bs ih =>
    intro j hj
    cases j with
    | zero => exact List.Perm.swap a b bs
    | succ j' =>
      have hj' : j' < bs.length := by simpa using hj
      exact ((List.Perm.swap b _ _).trans
        (List.Perm.cons b (ih j' hj'))).trans (List.Perm.swap a b bs)

theorem swapIdx_perm :
    ∀ (l : List String) (i j : Nat), i < l.length → j < l.length →
    List.Perm (swapIdx l i j) l := by
  intro l
  induction l with
  | nil => intro i j hi _; cases hi
  | cons a as ih =>
    intro i j hi hj
    cases i with
    | zero =>
      cases j with
      | zero => simp [swapIdx]
      | succ j' =>
        have hj' : j' < as.length := by simpa using hj
        exact getD_cons_set_perm a as j' hj'
    | succ i' =>
      cases j with
      | zero =>
        have hi' : i' < as.length := by simpa using hi
        exact getD_cons_set_perm a as i' hi'
      | succ j' =>
        have hi' : i' < as.length := by simpa using hi
        have hj' : j' < as.length := by simpa using hj
        exact List.Perm.cons a (ih i' j' hi' hj')

theorem swapIdx_length (l : List String) (i j : Nat) :
    (swapIdx l i j).length = l.length := by
  simp [swapIdx]

theorem shuffleGo_perm :
    ∀ (i : Nat) (deck : List String) (s : RandState), i < deck.length →
    List.Perm (shuffleGo deck i s).1 deck := by
  intro i
  induction i with
  | zero => intro deck s _; exact List.Perm.refl deck
  | succ k ih =>
    intro deck s hi
    have hstep : shuffleGo deck (k + 1) s =
        shuffleGo (swapIdx deck (k + 1) ((randomInt 0 (k + 1) s).1)) k
          (randomInt 0 (k + 1) s).2 := by
      rw [shuffleGo]
    rw [hstep]
    have hj : (randomInt 0 (k + 1) s).1 < deck.length := by
      have hmod : s.stream s.pos % (k + 1 - 0 + 1) < k + 2 := by
        have := Nat.mod_lt (s.stream s.pos) (y := k + 2) (by omega)
        simpa using this
      have : (randomInt 0 (k + 1) s).1 < k + 2 := by
        simpa [randomInt] using hmod
      omega
    have hk : k < (swapIdx deck (k + 1) ((randomInt 0 (k + 1) s).1)).length := by
      rw [swapIdx_length]
      omega
    exact (ih _ _ hk).trans (swapIdx_perm deck (k + 1) _ hi hj)

theorem shuffleDeck_perm (deck : List String) (s : RandState) :
    List.Perm (shuffleDeck deck s).1 deck := by
  by_cases hd : deck = []
  · subst hd
    exact List.Perm.refl _
  · exact shuffleGo_perm _ deck s
      (Nat.pred_lt (by simpa [List.length_eq_zero] using hd))

/-- C6 counterexample: `createDeck` accepts a Custom request with an empty
member list — replacing the previously active (valid, non-empty) deck by the
empty deck instead of failing — and likewise accepts an identifier outside
the 22-card vocabulary verbatim. -/
theorem createDeck_no_validation_counterexample :
    (createDeck ⟨TAROT_FULL, 22⟩ .custom (some []) ⟨fun _ => 0, 0⟩).1.deck = [] ∧
    (createDeck ⟨TAROT_FULL, 22⟩ .custom (some ["dragon"])
      ⟨fun _ => 0, 0⟩).1.deck = ["dragon"] ∧
    "dragon" ∉ TAROT_FULL := by
  exact ⟨rfl, rfl, by decide⟩

/-- C6 (amended): `createDeck` performs no validation and never fails: a
Custom request always replaces the active configuration, installing exactly
the supplied member list (as a permutation, after the Fisher-Yates shuffle)
and recording its length — including the empty list and identifiers outside
the 22-card vocabulary. -/
theorem createDeck_custom_installs (st : DeckState) (cards : List String)
    (s : RandState) :
    List.Perm (createDeck st .custom (some cards) s).1.deck cards ∧
    (createDeck st .custom (some cards) s).1.deckSize = cards.length := by
  have hset : (if cards.length > 0 then cards else []) = cards := by
    cases cards <;> simp
  constructor
  · show List.Perm (shuffleDeck (if cards.length > 0 then cards else []) s).1 cards
    rw [hset]
    exact shuffleDeck_perm cards s
  · show (if cards.length > 0 then cards else []).length = cards.length
    rw [hset]

/-! ## C7: the effect-aggregation tally invariant -/

theorem getEffect_isSome_of_pos {c : String} {n : Nat} (hn : n ≠ 0) :
    (getEffect c n).isSome = hasRule c := by
  unfold hasRule getEffect
  rw [if_neg hn, if_neg (by decide : ¬(1 = 0))]
  split
  all_goals first
    | rfl
    | (split <;> first | rfl | (exfalso; simp_all))

theorem sumP_insertCount (p : String → Bool) :
    ∀ (acc : List (String × Nat)) (c : String),
    (((insertCount acc c).filter (fun e => p e.1)).map Prod.snd).sum =
      ((acc.filter (fun e => p e.1)).map Prod.snd).sum +
        (if p c then 1 else 0) := by
  intro acc
  induction acc with
  | nil =>
    intro c
    by_cases hp : p c <;> simp [insertCount, hp]
  | cons e rest ih =>
    intro c
    obtain ⟨k, n⟩ := e
    by_cases hk : k = c
    · subst hk
      by_cases hp : p k <;> simp [insertCount, hp] <;> omega
    · by_cases hp : p k <;> simp [insertCount, hk, hp, ih c] <;> omega

theorem sumP_foldl_insertCount (p : String → Bool) :
    ∀ (drawn : List String) (acc : List (String × Nat)),
    (((drawn.foldl insertCount acc).filter (fun e => p e.1)).map Prod.snd).sum =
      ((acc.filter (fun e => p e.1)).map Prod.snd).sum + drawn.countP p := by
  intro drawn
  induction drawn with
  | nil => intro acc; simp
  | cons d ds ih =>
    intro acc
    rw [List.foldl_cons, ih (insertCount acc d), sumP_insertCount p acc d,
      List.countP_cons]
    by_cases hp : p d <;> simp [hp] <;> omega

theorem sumP_countCards (p : String → Bool) (drawn : List String) :
    (((countCards drawn).filter (fun e => p e.1)).map Prod.snd).sum =
      drawn.countP p := by
  simpa using sumP_foldl_insertCount p drawn []

theorem insertCount_pos :
    ∀ (acc : List (String × Nat)) (c : String),
    (∀ e ∈ acc, e.2 ≠ 0) → ∀ e ∈ insertCount acc c, e.2 ≠ 0 := by
  intro acc
  induction acc with
  | nil => intro c _ e he; simp [insertCount] at he; simp [he]
  | cons a rest ih =>
    intro c h e he
    obtain ⟨k, n⟩ := a
    by_cases hk : k = c
    · simp only [insertCount, if_pos hk] at he
      rcases List.mem_cons.1 he with he | he
      · simp [he]
      · exact h e (List.mem_cons_of_mem _ he)
    · simp only [insertCount, if_neg hk] at he
      rcases List.mem_cons.1 he with he | he
      · exact he ▸ h _ (List.mem_cons_self _ _)
      · exact ih c (fun e' he' => h e' (List.mem_cons_of_mem _ he')) e he

theorem countCards_pos (drawn : List String) :
    ∀ e ∈ countCards drawn, e.2 ≠ 0 := by
  suffices h : ∀ (acc : List (String × Nat)), (∀ e ∈ acc, e.2 ≠ 0) →
      ∀ e ∈ drawn.foldl insertCount acc, e.2 ≠ 0 by
    exact h [] (by simp)
  induction drawn with
  | nil => intro acc hacc; simpa using hacc
  | cons d ds ih =>
    intro acc hacc
    rw [List.foldl_cons]
    exact ih _ (insertCount_pos acc d hacc)

theorem calcLoop_sum :
    ∀ entries : List (String × Nat), (∀ e ∈ entries, e.2 ≠ 0) →
    ((calcLoop entries).1.map EffectData.count).sum +
      ((calcLoop entries).2.map CurseData.count).sum =
      ((entries.filter (fun e => hasRule e.1)).map Prod.snd).sum := by
  intro entries
  induction entries with
  | nil => intro _; simp [calcLoop]
  | cons e rest ih =>
    intro h
    obtain ⟨c, n⟩ := e
    have hn : n ≠ 0 := h (c, n) (List.mem_cons_self _ _)
    have hrest := ih fun e' he' => h e' (List.mem_cons_of_mem _ he')
    cases hge : getEffect c n with
    | none =>
      have hr : hasRule c = false := by
        have := getEffect_isSome_of_pos (c := c) hn
        rw [hge] at this
        simpa using this.symm
      simp only [calcLoop, hge, List.filter_cons, hr]
      simpa using hrest
    | some eff =>
      have hr : hasRule c = true := by
        have := getEffect_isSome_of_pos (c := c) hn
        rw [hge] at this
        simpa using this.symm
      cases eff <;>
        · simp only [calcLoop, hge, List.filter_cons, hr, if_pos]
          simp only [List.map_cons, List.sum_cons]
          omega

/-- C7: for every non-empty outcome, the counts of the returned regular and
curse records plus the number of drawn cards whose identifier has no entry in
the rule table add up to the outcome's length. -/
theorem calculateEffects_tally {drawn : List String} (h : drawn ≠ []) :
    ((calculateEffects drawn).1.map EffectData.count).sum +
      ((calculateEffects drawn).2.map CurseData.count).sum +
      drawn.countP (fun c => !hasRule c) = drawn.length := by
  rw [calculateEffects, if_neg (by simpa [List.isEmpty_iff] using h)]
  rw [calcLoop_sum _ (countCards_pos drawn), sumP_countCards hasRule drawn]
  have hsplit := List.length_eq_countP_add_countP (p := hasRule) (l := drawn)
  have hcongr : drawn.countP (fun a => decide ¬hasRule a = true) =
      drawn.countP (fun c => !hasRule c) := by
    apply List.countP_congr
    intro a _
    by_cases ha : hasRule a <;> simp [ha]
  omega

/-! ## C8: dice tokens in text -/

theorem replaceToken_nil (s : RandState) : replaceToken [] s = ([], s) := rfl

theorem replaceDiceRuns_allNonword :
    ∀ {post : List Char}, (∀ c ∈ post, isWordChar c = false) →
    ∀ s : RandState, replaceDiceRuns [] post s = (post, s) := by
  intro post
  induction post with
  | nil => intro _ s; rfl
  | cons d ds ih =>
    intro h s
    have hd : isWordChar d = false := h d (List.mem_cons_self _ _)
    simp only [replaceDiceRuns, hd, Bool.false_eq_true, if_false]
    rw [ih (fun c hc => h c (List.mem_cons_of_mem _ hc))]
    rfl

theorem replaceDiceRuns_nonword_append {pre : List Char}
    (h : ∀ c ∈ pre, isWordChar c = false) :
    ∀ (rest : List Char) (s : RandState),
    replaceDiceRuns [] (pre ++ rest) s =
      (pre ++ (replaceDiceRuns [] rest s).1, (replaceDiceRuns [] rest s).2) := by
  induction pre with
  | nil => intro rest s; simp
  | cons c pre' ih =>
    intro rest s
    have hc : isWordChar c = false := h c (List.mem_cons_self _ _)
    simp only [List.cons_append, replaceDiceRuns, hc, Bool.false_eq_true,
      if_false, List.reverse_nil, replaceToken_nil, List.append_eq]
    rw [ih (fun c' hc' => h c' (List.mem_cons_of_mem _ hc')) rest s]
    simp

theorem replaceDiceRuns_word {post : List Char}
    (hpost : ∀ c ∈ post, isWordChar c = false) :
    ∀ (tokRest acc : List Char) (s : RandState),
    (∀ c ∈ tokRest, isWordChar c = true) →
    replaceDiceRuns acc (tokRest ++ post) s =
      ((replaceToken (acc.reverse ++ tokRest) s).1 ++ post,
       (replaceToken (acc.reverse ++ tokRest) s).2) := by
  intro tokRest
  induction tokRest with
  | nil =>
    intro acc s _
    cases post with
    | nil => simp [replaceDiceRuns]
    | cons d ds =>
      have hd : isWordChar d = false := hpost d (List.mem_cons_self _ _)
      have hds : ∀ c ∈ ds, isWordChar c = false :=
        fun c hc => hpost c (List.mem_cons_of_mem _ hc)
      simp only [List.nil_append, replaceDiceRuns, hd, Bool.false_eq_true,
        if_false]
      rw [replaceDiceRuns_allNonword hds]
      simp
  | cons c tokRest' ih =>
    intro acc s hword
    have hc : isWordChar c = true := hword c (List.mem_cons_self _ _)
    simp only [List.cons_append, replaceDiceRuns, hc, if_true, List.append_eq]
    rw [ih (c :: acc) s (fun c' h => hword c' (List.mem_cons_of_mem _ h))]
    simp [List.append_assoc]

theorem replaceDiceRuns_word_token {tok post : List Char}
    (hword : ∀ c ∈ tok, isWordChar c = true)
    (hpost : ∀ c ∈ post, isWordChar c = false) (s : RandState) :
    replaceDiceRuns [] (tok ++ post) s =
      ((replaceToken tok s).1 ++ post, (replaceToken tok s).2) := by
  simpa using replaceDiceRuns_word hpost tok [] s hword

/-- C8 counterexample: the token "0d6" fails to parse (`quantity < 1`), yet
it is not left untouched: the whole-text evaluator replaces it by "0". -/
theorem rollDiceInText_invalid_replaced_counterexample :
    parseDiceExpression "0d6" = none ∧
    (rollDiceInText "You roll 0d6 now" ⟨fun _ => 0, 0⟩).1 = "You roll 0 now" ∧
    ("You roll 0 now" : String) ≠ "You roll 0d6 now" := by
  exact ⟨rfl, rfl, by decide⟩

/-- C8 (amended): in `rollDiceInText`, a word-boundary token that does not
match the dice pattern is left untouched (with the PRNG state unchanged); a
token that matches the pattern but fails validation (quantity or sides below
1, e.g. "0d6") is replaced by "0", again without consuming randomness, with
only a non-fatal diagnostic; a token that parses as a valid expression is
replaced by its independently rolled integer value.  Surrounding non-word
text is always preserved. -/
theorem rollDiceInText_token_behavior (pre tok post : List Char)
    (s : RandState) (hpre : ∀ c ∈ pre, isWordChar c = false)
    (hpost : ∀ c ∈ post, isWordChar c = false)
    (hword : ∀ c ∈ tok, isWordChar c = true) :
    rollDiceInText ⟨pre ++ tok ++ post⟩ s =
      (⟨pre ++ (replaceToken tok s).1 ++ post⟩, (replaceToken tok s).2) ∧
    (parseDiceShape tok = none → replaceToken tok s = (tok, s)) ∧
    (parseDiceExpression ⟨tok⟩ = none →
      ∀ q sd kh, parseDiceShape tok = some (q, sd, kh) →
      replaceToken tok s = (['0'], s)) ∧
    (∀ p, parseDiceExpression ⟨tok⟩ = some p →
      replaceToken tok s =
        ((toString (rollDiceExpression ⟨tok⟩ s).1).data,
         (rollDiceExpression ⟨tok⟩ s).2)) := by
  refine ⟨?_, ?_, ?_, ?_⟩
  · show ((⟨(replaceDiceRuns [] (pre ++ tok ++ post) s).1⟩ : String),
        (replaceDiceRuns [] (pre ++ tok ++ post) s).2) = _
    rw [List.append_assoc, replaceDiceRuns_nonword_append hpre,
      replaceDiceRuns_word_token hword hpost]
    simp [List.append_assoc]
  · intro h
    simp [replaceToken, h]
  · intro hparse q sd kh hshape
    have h0 : rollDiceExpression ⟨tok⟩ s = (0, s) := by
      rw [rollDiceExpression, hparse]
    simp [replaceToken, hshape, h0]
    rfl
  · intro p hp
    cases hshape : parseDiceShape tok with
    | none =>
      rw [parseDiceExpression] at hp
      rw [show (⟨tok⟩ : String).data = tok from rfl] at hp
      simp only [hshape] at hp
      exact Option.noConfusion hp
    | some v => simp [replaceToken, hshape]

/-! ## C9: resistance-duration dice text -/

theorem parseDiceExpression_quantity_pos {tok : String} {p : DiceParse}
    (h : parseDiceExpression tok = some p) : 1 ≤ p.quantity := by
  rw [parseDiceExpression] at h
  cases hshape : parseDiceShape tok.data with
  | none =>
    simp only [hshape] at h
    exact Option.noConfusion h
  | some v =>
    obtain ⟨q, sd, kh⟩ := v
    simp only [hshape] at h
    split at h
    · exact Option.noConfusion h
    · rename_i hv
      cases h
      show 1 ≤ q
      omega

/-- C9 counterexample: the "keep-highest" suffix appears exactly when the
tally exceeds 1 — not, as the claim states, only in the degenerate tally == 1
case — and the evaluator resolves the suffixed text as the maximum of the
rolls, not their sum: with rolls 3 and 5, "2d12kh1" evaluates to 5, not 8. -/
theorem durationDiceText_counterexample :
    calculateChaosDurations ["fire", "fire"] = [("fire", 2)] ∧
    durationDiceText 2 = "2d12kh1" ∧
    durationDiceText 1 = "1d12" ∧
    (rollDiceExpression "2d12kh1" ⟨fun n => if n = 0 then 2 else 4, 0⟩).1 = 5 ∧
    5 ≠ 3 + 5 := by
  exact ⟨rfl, rfl, rfl, rfl, by decide⟩

/-- C9 (amended): the rendered per-damage-type dice text is a bare single
twelve-sided die exactly for a tally of 1; for larger tallies it is the
tally-many twelve-sided dice with the keep-highest suffix, which the dice
evaluator resolves as the maximum of the rolls (the running-maximum loop),
not their sum. -/
theorem durationDiceText_spec (n : Nat) :
    (n = 1 → durationDiceText n = "1d12") ∧
    (n ≠ 1 → durationDiceText n = toString n ++ "d12kh1") ∧
    (∀ (tok : String) (s : RandState) (p : DiceParse),
      parseDiceExpression tok = some p → p.keepHighest = true →
      rollDiceExpression tok s = khLoop p.sides p.quantity 0 s) := by
  refine ⟨?_, ?_, ?_⟩
  · intro h
    subst h
    rfl
  · intro h
    simp only [durationDiceText, if_neg h]
    rfl
  · intro tok s p hp hkh
    have hq := parseDiceExpression_quantity_pos hp
    rw [rollDiceExpression, hp]
    simp only [hkh, if_true]
    rw [if_neg (by omega)]

/-! ## Concrete witnesses -/

theorem drawOutcome_halt_invariant_witness :
    haltOk ["isolation"] = true ∧ haltOk ["x", "x"] = true :=
  ⟨drawOutcome_halt_invariant.1 ["isolation"] 1 ⟨fun _ => 0, 0⟩ ["isolation"] rfl,
   drawOutcome_halt_invariant.2 ["x"] ["mischief"] ⟨fun _ => 0, 0⟩ ["x", "x"] rfl⟩

theorem handleDrawCards_extendRule_witness :
    (handleDrawCards ["mystery"] 1 ⟨fun _ => 0, 0⟩).1 =
      some ["mystery", "mystery"] := by
  rw [@handleDrawCards_extendRule ["mystery"] 1 ⟨fun _ => 0, 0⟩ (by decide)
    (by decide) (by decide) (by decide)]
  rfl

theorem handleDrawCards_length_witness :
    ∃ out, (handleDrawCards ["champion"] 2 ⟨fun _ => 0, 0⟩).1 = some out ∧
      out.length = 2 :=
  @handleDrawCards_length ["champion"] 2 ⟨fun _ => 0, 0⟩ (by decide) (by decide)
    (by decide) (by decide) (by decide)

theorem handleMischiefDraw_haltPresent_witness :
    handleMischiefDraw ["x"] ["isolation"] ⟨fun _ => 0, 0⟩ =
      (none, ⟨fun _ => 0, 0⟩) :=
  @handleMischiefDraw_haltPresent ["x"] ["isolation"] ⟨fun _ => 0, 0⟩ (by decide)

theorem handleMischiefDraw_spec_witness :
    handleMischiefDraw ["isolation"] ["mischief"] ⟨fun _ => 0, 0⟩ =
      (some ["isolation"], ⟨fun _ => 0, 2⟩) := by
  rw [@handleMischiefDraw_spec ["isolation"] ["mischief"] ⟨fun _ => 0, 0⟩
    (by decide) (by decide)]
  rfl

theorem handleMischiefDraw_mischiefCount_witness :
    ∃ res, (handleMischiefDraw ["x"] ["mischief", "mischief"]
        ⟨fun _ => 0, 0⟩).1 = some res ∧
      res.count "mischief" = 1 := by
  obtain ⟨res, h1, h2⟩ := @handleMischiefDraw_mischiefCount ["x"]
    ["mischief", "mischief"] ⟨fun _ => 0, 0⟩ (by decide) (by decide) (by decide)
  refine ⟨res, h1, ?_⟩
  rw [h2]
  rfl

theorem calculateEffects_tally_witness :
    ((calculateEffects ["champion", "champion", "dusk", "zzz"]).1.map
        EffectData.count).sum +
      ((calculateEffects ["champion", "champion", "dusk", "zzz"]).2.map
        CurseData.count).sum +
      (["champion", "champion", "dusk", "zzz"] : List String).countP
        (fun c => !hasRule c) =
      (["champion", "champion", "dusk", "zzz"] : List String).length :=
  calculateEffects_tally (by decide)

theorem rollDiceInText_token_behavior_witness :
    (rollDiceInText ⟨[' '] ++ ['0', 'd', '6'] ++ [' ']⟩ ⟨fun _ => 0, 0⟩).1 =
      " 0 " := by
  rw [(rollDiceInText_token_behavior [' '] ['0', 'd', '6'] [' ']
    ⟨fun _ => 0, 0⟩ (by decide) (by decide) (by decide)).1]
  rfl

theorem durationDiceText_spec_witness :
    durationDiceText 2 = toString 2 ++ "d12kh1" ∧
    rollDiceExpression "2d12kh1" ⟨fun _ => 0, 0⟩ =
      khLoop 12 2 0 ⟨fun _ => 0, 0⟩ :=
  ⟨(durationDiceText_spec 2).2.1 (by decide),
   (durationDiceText_spec 2).2.2 "2d12kh1" ⟨fun _ => 0, 0⟩ ⟨2, 12, true⟩
     (by decide) rfl⟩

end WonderShuffle
